import Mathlib

/-!
Shallow embedding of the Valyro frontend read path and the scheduling
scripts, with theorems checking the specification's claims about them.

Sources embedded:
* `frontend/src/app/App.tsx` (dashboard loading, percentage change for
  cards, the `apiJson` HTTP client, `listKeywords`);
* `frontend/src/app/sections/CompareSection.tsx` (`onCompare` merge);
* `frontend/src/app/components/ProductDetailPanel.tsx` (normal-range
  rendering, series chart sorting);
* `frontend/src/app/components/SearchBar.tsx` (`toNumOrUndef`,
  `handleSearch`);
* `scripts/install_daily_task.ps1` (scheduled-task installation).

Modelling conventions: JavaScript numbers are embedded as exact
rationals tagged with the non-finite special values (`JSNum`); `Date`
timestamps are embedded as the natural number returned by `getTime()`;
JavaScript's stable comparator sort (`Array.prototype.sort`) is embedded
as `List.insertionSort`, which is stable and agrees with any stable sort
on the comparator order; thrown exceptions are `Except.error`.
-/

/-- A JavaScript number: a finite value (exact rational) or one of the
non-finite specials `NaN`, `Infinity`, `-Infinity`. -/
inductive JSNum where
  | num (q : ℚ)
  | nan
  | inf
  | negInf
deriving DecidableEq, Repr

namespace JSNum

/-- `Number.isFinite` / the global `isFinite` on a number argument. -/
def isFinite : JSNum → Bool
  | .num _ => true
  | _ => false

end JSNum

/-- One element of the `series` array of `GET /keyword/{kw}/series`
(`KeywordSeriesResponse` in `api/valyro.ts`): `scraped_at` is embedded as
the millisecond timestamp `new Date(p.scraped_at).getTime()`. -/
structure SeriesPoint where
  scraped_at : ℕ
  media : JSNum
  mediana : JSNum
deriving DecidableEq, Repr

/-- Comparator order used by the sorts in `App.tsx` line 66 and
`ProductDetailPanel.tsx` line 88:
`(a, b) => new Date(a.scraped_at).getTime() - new Date(b.scraped_at).getTime()`. -/
def leTime (a b : SeriesPoint) : Prop := a.scraped_at ≤ b.scraped_at

instance : DecidableRel leTime := fun a b => Nat.decLe a.scraped_at b.scraped_at

instance : IsTotal SeriesPoint leTime := ⟨fun a b => Nat.le_total a.scraped_at b.scraped_at⟩

instance : IsTrans SeriesPoint leTime := ⟨fun _ _ _ => Nat.le_trans⟩

/-- The sort `ser.series.slice().sort((a, b) => ...)` applied to a series:
a stable sort by ascending `scraped_at` (JavaScript's `Array.prototype.sort`
is stable, and `List.insertionSort` is the stable sort on this order). -/
def sortSeries (pts : List SeriesPoint) : List SeriesPoint :=
  List.insertionSort leTime pts

/-- Junk element read when an index is out of range; the code only reads
indices it has bounds-checked, so this value is never observed. -/
def junkPoint : SeriesPoint := ⟨0, .nan, .nan⟩

/-- The point `sorted[sorted.length - 2]` of `loadPriceChangesForCards`
(`App.tsx` line 70). -/
def prevPoint (pts : List SeriesPoint) : SeriesPoint :=
  (sortSeries pts).getD ((sortSeries pts).length - 2) junkPoint

/-- The point `sorted[sorted.length - 1]` of `loadPriceChangesForCards`
(`App.tsx` line 71). -/
def lastPoint (pts : List SeriesPoint) : SeriesPoint :=
  (sortSeries pts).getD ((sortSeries pts).length - 1) junkPoint

/-- Per-keyword body of `loadPriceChangesForCards` (`App.tsx` lines
63-76): sort the series ascending by `scraped_at`; with fewer than two
points return `0`; otherwise read the last two medians, return `0`
unless the earlier one is finite and strictly positive and the later one
is finite, and else return `(last - prev) / prev * 100`.
(`Number(x)` on the `mediana` field is the identity on numbers.) -/
def cardPctChange (pts : List SeriesPoint) : ℚ :=
  if (sortSeries pts).length < 2 then 0
  else
    -- `if (!isFinite(prev) || prev <= 0 || !isFinite(last)) return 0`
    match (prevPoint pts).mediana, (lastPoint pts).mediana with
    | .num p, .num l => if p ≤ 0 then 0 else (l - p) / p * 100
    | _, _ => 0

/-- C1: the dashboard-card percentage change is
`(last.median - previous.median) / previous.median * 100` over the two
chronologically latest points of the sorted series, defined exactly when
at least two points exist, the earlier median is finite and strictly
positive and the later median is finite; in every other case the result
is the sentinel `0`. -/
theorem cardPctChange_spec (pts : List SeriesPoint) :
    (∀ p l : ℚ, 2 ≤ (sortSeries pts).length →
      (prevPoint pts).mediana = .num p →
      (lastPoint pts).mediana = .num l →
      0 < p →
      cardPctChange pts = (l - p) / p * 100) ∧
    ((sortSeries pts).length < 2 → cardPctChange pts = 0) ∧
    (∀ p : ℚ, 2 ≤ (sortSeries pts).length →
      (prevPoint pts).mediana = .num p → p ≤ 0 →
      cardPctChange pts = 0) ∧
    (2 ≤ (sortSeries pts).length →
      ((prevPoint pts).mediana.isFinite = false ∨
        (lastPoint pts).mediana.isFinite = false) →
      cardPctChange pts = 0) := by
  refine ⟨?_, ?_, ?_, ?_⟩
  · intro p l hlen hp hl hpos
    unfold cardPctChange
    rw [if_neg (by omega), hp, hl]
    dsimp only
    rw [if_neg (not_le.mpr hpos)]
  · intro hlen
    unfold cardPctChange
    rw [if_pos hlen]
  · intro p hlen hp hnonpos
    unfold cardPctChange
    rw [if_neg (by omega), hp]
    cases hl : (lastPoint pts).mediana <;> simp [hnonpos]
  · intro hlen hnf
    unfold cardPctChange
    rw [if_neg (by omega)]
    cases h : (prevPoint pts).mediana <;>
      cases h2 : (lastPoint pts).mediana <;>
      simp_all [JSNum.isFinite]

/-- Witness for C1 at a concrete series: medians 100 then 110 give +10%. -/
theorem cardPctChange_spec_witness :
    cardPctChange [⟨1, .num 0, .num 110⟩, ⟨0, .num 0, .num 100⟩] = 10 := by
  have h := (cardPctChange_spec [⟨1, .num 0, .num 110⟩, ⟨0, .num 0, .num 100⟩]).1
    100 110 (by decide) (by decide) (by decide) (by decide)
  rw [h]; norm_num

/-- Strict version of the timestamp order, used to show the sorted series
is unique when timestamps are pairwise distinct. -/
def ltTime (a b : SeriesPoint) : Prop := a.scraped_at < b.scraped_at

instance : IsAntisymm SeriesPoint ltTime :=
  ⟨fun _ _ h1 h2 => absurd (Nat.lt_trans h1 h2) (Nat.lt_irrefl _)⟩

/-- Helper: a sort of a list with pairwise-distinct timestamps is sorted
for the strict timestamp order. -/
theorem sortSeries_sorted_lt (l : List SeriesPoint)
    (hnodup : (l.map SeriesPoint.scraped_at).Nodup) :
    List.Sorted ltTime (sortSeries l) := by
  have hsorted : List.Sorted leTime (sortSeries l) :=
    List.sorted_insertionSort leTime l
  have hperm : List.Perm (sortSeries l) l := List.perm_insertionSort leTime l
  have hnodup' : ((sortSeries l).map SeriesPoint.scraped_at).Nodup :=
    ((hperm.map SeriesPoint.scraped_at).symm).nodup hnodup
  have hne : (sortSeries l).Pairwise
      (fun a b => a.scraped_at ≠ b.scraped_at) := by
    rw [List.Nodup, List.pairwise_map] at hnodup'
    exact hnodup'
  exact (hsorted.and hne).imp fun h => Nat.lt_of_le_of_ne h.1 h.2

/-- C5: for any series with pairwise-distinct `scraped_at` values, the
sorted series consumed by the chart and by the percentage-change
computation is sorted ascending by `scraped_at`, and is the same for any
permutation of the points returned by the store. -/
theorem sortSeries_sorted_and_perm_invariant (l₁ l₂ : List SeriesPoint)
    (hnodup : (l₁.map SeriesPoint.scraped_at).Nodup) (hperm : l₁.Perm l₂) :
    List.Sorted leTime (sortSeries l₁) ∧ sortSeries l₁ = sortSeries l₂ := by
  refine ⟨List.sorted_insertionSort leTime l₁, ?_⟩
  have hperm' : List.Perm (sortSeries l₁) (sortSeries l₂) :=
    (List.perm_insertionSort leTime l₁).trans
      (hperm.trans (List.perm_insertionSort leTime l₂).symm)
  have hnodup₂ : (l₂.map SeriesPoint.scraped_at).Nodup :=
    (hperm.map SeriesPoint.scraped_at).nodup hnodup
  exact List.eq_of_perm_of_sorted hperm'
    (sortSeries_sorted_lt l₁ hnodup) (sortSeries_sorted_lt l₂ hnodup₂)

/-- Witness for C5 at two concrete orderings of the same two points. -/
theorem sortSeries_sorted_and_perm_invariant_witness :
    List.Sorted leTime
      (sortSeries [⟨2, .num 1, .num 5⟩, ⟨1, .num 3, .num 4⟩]) ∧
    sortSeries [⟨2, .num 1, .num 5⟩, ⟨1, .num 3, .num 4⟩] =
      sortSeries [⟨1, .num 3, .num 4⟩, ⟨2, .num 1, .num 5⟩] :=
  sortSeries_sorted_and_perm_invariant
    [⟨2, .num 1, .num 5⟩, ⟨1, .num 3, .num 4⟩]
    [⟨1, .num 3, .num 4⟩, ⟨2, .num 1, .num 5⟩]
    (by decide) (by decide)

/-- Trigger kind of a Windows scheduled task, as created by
`install_daily_task.ps1`: `/SC DAILY /ST $Time` or `/SC ONLOGON`. -/
inductive Schedule where
  | daily (time : String)
  | onLogon
deriving DecidableEq, Repr

/-- A registered scheduled task: its trigger and the command it runs
(`/TR`). -/
structure TaskDef where
  sched : Schedule
  command : String
deriving DecidableEq, Repr

/-- The Windows task registry restricted to task names: an association
list from task name (`/TN`) to definition. Task names are unique in the
registry, which the theorems carry as a `Nodup` hypothesis. -/
abbrev TaskState := List (String × TaskDef)

/-- `schtasks /Create /F /TN name ...`: with `/F` the task of that name
is overwritten in place if it exists, otherwise a new task is created. -/
def upsertTask (s : TaskState) (name : String) (d : TaskDef) : TaskState :=
  match s with
  | [] => [(name, d)]
  | (n, d') :: rest =>
      if n = name then (name, d) :: rest else (n, d') :: upsertTask rest name d

/-- The runner path `$ProjectRoot\scripts\run_daily_scrape.ps1`
(`install_daily_task.ps1` line 15). -/
def runnerPath (projectRoot : String) : String :=
  projectRoot ++ "\\scripts\\run_daily_scrape.ps1"

/-- The command both tasks run (`install_daily_task.ps1` line 19):
`powershell.exe -NoProfile -ExecutionPolicy Bypass -File "$runner" -Mode $Mode -ProjectRoot "$ProjectRoot"`. -/
def taskCmd (mode projectRoot : String) : String :=
  "powershell.exe -NoProfile -ExecutionPolicy Bypass -File \"" ++
    runnerPath projectRoot ++ "\" -Mode " ++ mode ++
    " -ProjectRoot \"" ++ projectRoot ++ "\""

/-- Name of the daily task: `"$TaskBase (Daily)"`. -/
def taskDailyName (base : String) : String := base ++ " (Daily)"

/-- Name of the logon catch-up task: `"$TaskBase (OnLogon)"`. -/
def taskLogonName (base : String) : String := base ++ " (OnLogon)"

/-- Effect of running `install_daily_task.ps1` on the task registry
(lines 18-32): force-create the daily task at the given time, then
force-create the logon catch-up task, both running `taskCmd`. -/
def installDailyTask (time mode base projectRoot : String)
    (s : TaskState) : TaskState :=
  upsertTask
    (upsertTask s (taskDailyName base) ⟨.daily time, taskCmd mode projectRoot⟩)
    (taskLogonName base) ⟨.onLogon, taskCmd mode projectRoot⟩

/-- Helper: looking up the name just upserted yields the new definition. -/
theorem lookup_upsertTask_self (s : TaskState) (name : String) (d : TaskDef) :
    (upsertTask s name d).lookup name = some d := by
  induction s with
  | nil => simp [upsertTask, List.lookup_cons]
  | cons hd tl ih =>
    obtain ⟨n, d'⟩ := hd
    by_cases h : n = name
    · simp [upsertTask, h, List.lookup_cons]
    · simp [upsertTask, h, List.lookup_cons, beq_false_of_ne (Ne.symm h), ih]

/-- Helper: upserting one name leaves lookups of other names unchanged. -/
theorem lookup_upsertTask_other (s : TaskState) (name other : String)
    (d : TaskDef) (h : other ≠ name) :
    (upsertTask s name d).lookup other = s.lookup other := by
  induction s with
  | nil => simp [upsertTask, List.lookup_cons, beq_false_of_ne h]
  | cons hd tl ih =>
    obtain ⟨n, d'⟩ := hd
    by_cases hn : n = name
    · subst hn
      simp [upsertTask, List.lookup_cons, beq_false_of_ne h]
    · simp [upsertTask, hn, List.lookup_cons, ih]

/-- Helper: re-upserting the same name collapses to the last upsert. -/
theorem upsertTask_upsertTask (s : TaskState) (name : String)
    (d₁ d₂ : TaskDef) :
    upsertTask (upsertTask s name d₁) name d₂ = upsertTask s name d₂ := by
  induction s with
  | nil => simp [upsertTask]
  | cons hd tl ih =>
    obtain ⟨n, d'⟩ := hd
    by_cases h : n = name <;> simp [upsertTask, h, ih]

/-- Helper: a re-upsert of name `a` through an intervening upsert of a
distinct name `b` collapses to the last value written for `a`. -/
theorem upsertTask_skip (s : TaskState) (a b : String)
    (da da' db : TaskDef) (h : a ≠ b) :
    upsertTask (upsertTask (upsertTask s a da) b db) a da' =
      upsertTask (upsertTask s a da') b db := by
  induction s with
  | nil => simp [upsertTask, h, Ne.symm h]
  | cons hd tl ih =>
    obtain ⟨n, d'⟩ := hd
    by_cases h1 : n = a
    · subst h1
      simp [upsertTask, Ne.symm h, h]
    · by_cases h2 : n = b
      · subst h2
        simp [upsertTask, h1, Ne.symm h, upsertTask_upsertTask]
      · simp [upsertTask, h1, h2, ih]

/-- Helper: the names present after an upsert. -/
theorem map_fst_upsertTask (s : TaskState) (name : String) (d : TaskDef) :
    (upsertTask s name d).map Prod.fst =
      if name ∈ s.map Prod.fst then s.map Prod.fst
      else s.map Prod.fst ++ [name] := by
  induction s with
  | nil => simp [upsertTask]
  | cons hd tl ih =>
    obtain ⟨n, d'⟩ := hd
    by_cases h : n = name
    · simp [upsertTask, h]
    · simp only [upsertTask, if_neg h, List.map_cons, List.mem_cons, ih]
      by_cases hm : name ∈ tl.map Prod.fst <;>
        simp [hm, Ne.symm h]

/-- Helper: upserting preserves uniqueness of task names. -/
theorem nodup_upsertTask (s : TaskState) (name : String) (d : TaskDef)
    (h : (s.map Prod.fst).Nodup) :
    ((upsertTask s name d).map Prod.fst).Nodup := by
  rw [map_fst_upsertTask]
  by_cases hm : name ∈ s.map Prod.fst
  · simpa [hm]
  · rw [if_neg hm]
    simp [List.nodup_append, h, hm]

/-- Helper: number of tasks of a given name after an upsert of that name,
when names are unique. -/
theorem count_upsertTask_self (s : TaskState) (name : String) (d : TaskDef)
    (h : (s.map Prod.fst).Nodup) :
    ((upsertTask s name d).map Prod.fst).count name = 1 := by
  have hnd := nodup_upsertTask s name d h
  have hmem : name ∈ (upsertTask s name d).map Prod.fst := by
    rw [map_fst_upsertTask]
    by_cases hm : name ∈ s.map Prod.fst <;> simp [hm]
  exact List.count_eq_one_of_mem hnd hmem

/-- Helper: the two task names differ for every base. -/
theorem taskDailyName_ne_taskLogonName (base : String) :
    taskDailyName base ≠ taskLogonName base := by
  intro h
  have hd : (taskDailyName base).data = (taskLogonName base).data :=
    congrArg String.data h
  rw [taskDailyName, taskLogonName, String.data_append, String.data_append]
    at hd
  have := List.append_cancel_left hd
  simp at this

/-- Helper: after one install, with unique task names, exactly one task
has the daily name and exactly one has the logon name. -/
theorem install_counts (s : TaskState) (t mode base root : String)
    (hnodup : (s.map Prod.fst).Nodup) :
    ((installDailyTask t mode base root s).map Prod.fst).count
        (taskDailyName base) = 1 ∧
    ((installDailyTask t mode base root s).map Prod.fst).count
        (taskLogonName base) = 1 := by
  have hne := taskDailyName_ne_taskLogonName base
  constructor
  · rw [installDailyTask, map_fst_upsertTask]
    have hcount := count_upsertTask_self s (taskDailyName base)
      ⟨.daily t, taskCmd mode root⟩ hnodup
    by_cases hm : taskLogonName base ∈
        (upsertTask s (taskDailyName base)
          ⟨.daily t, taskCmd mode root⟩).map Prod.fst
    · simpa [hm] using hcount
    · rw [if_neg hm, List.count_append, hcount]
      simp [List.count_cons, Ne.symm hne]
  · exact count_upsertTask_self _ (taskLogonName base) _
      (nodup_upsertTask s (taskDailyName base) _ hnodup)

/-- C7: after a successful install at a given time, the registry holds a
daily trigger firing at that time and a logon catch-up trigger, and both
run the same daily-scrape pipeline command `taskCmd` (which invokes
`scripts/run_daily_scrape.ps1`). -/
theorem installDailyTask_two_triggers (s : TaskState)
    (t mode base root : String) :
    (installDailyTask t mode base root s).lookup (taskDailyName base) =
      some ⟨.daily t, taskCmd mode root⟩ ∧
    (installDailyTask t mode base root s).lookup (taskLogonName base) =
      some ⟨.onLogon, taskCmd mode root⟩ := by
  have hne := taskDailyName_ne_taskLogonName base
  constructor
  · rw [installDailyTask, lookup_upsertTask_other _ _ _ _ hne]
    exact lookup_upsertTask_self _ _ _
  · exact lookup_upsertTask_self _ _ _

/-- C6: installing twice (possibly with a new time) is the same as
installing once at the latest time; afterwards, with unique task names,
exactly one daily trigger and one logon trigger are in place and the
daily trigger carries the most recently supplied time. -/
theorem installDailyTask_idempotent (s : TaskState)
    (t₁ t₂ mode base root : String)
    (hnodup : (s.map Prod.fst).Nodup) :
    installDailyTask t₂ mode base root
        (installDailyTask t₁ mode base root s) =
      installDailyTask t₂ mode base root s ∧
    ((installDailyTask t₂ mode base root
        (installDailyTask t₁ mode base root s)).map Prod.fst).count
        (taskDailyName base) = 1 ∧
    ((installDailyTask t₂ mode base root
        (installDailyTask t₁ mode base root s)).map Prod.fst).count
        (taskLogonName base) = 1 ∧
    (installDailyTask t₂ mode base root
        (installDailyTask t₁ mode base root s)).lookup
        (taskDailyName base) = some ⟨.daily t₂, taskCmd mode root⟩ ∧
    (installDailyTask t₂ mode base root
        (installDailyTask t₁ mode base root s)).lookup
        (taskLogonName base) = some ⟨.onLogon, taskCmd mode root⟩ := by
  have hne := taskDailyName_ne_taskLogonName base
  have heq : installDailyTask t₂ mode base root
      (installDailyTask t₁ mode base root s) =
      installDailyTask t₂ mode base root s := by
    rw [installDailyTask, installDailyTask, installDailyTask]
    rw [upsertTask_skip _ _ _ _ _ _ hne, upsertTask_upsertTask]
  refine ⟨heq, ?_, ?_, ?_, ?_⟩ <;> rw [heq]
  · exact (install_counts s t₂ mode base root hnodup).1
  · exact (install_counts s t₂ mode base root hnodup).2
  · exact (installDailyTask_two_triggers s t₂ mode base root).1
  · exact (installDailyTask_two_triggers s t₂ mode base root).2

/-- Witness for C6: installing at 09:30 then re-installing at 10:00 over
an empty registry leaves one daily task at 10:00 and one logon task. -/
theorem installDailyTask_idempotent_witness :
    installDailyTask "10:00" "python" "Valyro - Daily Scrape" "C:\\V"
        (installDailyTask "09:30" "python" "Valyro - Daily Scrape" "C:\\V"
          []) =
      installDailyTask "10:00" "python" "Valyro - Daily Scrape" "C:\\V" [] ∧
    ((installDailyTask "10:00" "python" "Valyro - Daily Scrape" "C:\\V"
        (installDailyTask "09:30" "python" "Valyro - Daily Scrape" "C:\\V"
          [])).map Prod.fst).count
        (taskDailyName "Valyro - Daily Scrape") = 1 ∧
    ((installDailyTask "10:00" "python" "Valyro - Daily Scrape" "C:\\V"
        (installDailyTask "09:30" "python" "Valyro - Daily Scrape" "C:\\V"
          [])).map Prod.fst).count
        (taskLogonName "Valyro - Daily Scrape") = 1 ∧
    (installDailyTask "10:00" "python" "Valyro - Daily Scrape" "C:\\V"
        (installDailyTask "09:30" "python" "Valyro - Daily Scrape" "C:\\V"
          [])).lookup (taskDailyName "Valyro - Daily Scrape") =
      some ⟨.daily "10:00", taskCmd "python" "C:\\V"⟩ ∧
    (installDailyTask "10:00" "python" "Valyro - Daily Scrape" "C:\\V"
        (installDailyTask "09:30" "python" "Valyro - Daily Scrape" "C:\\V"
          [])).lookup (taskLogonName "Valyro - Daily Scrape") =
      some ⟨.onLogon, taskCmd "python" "C:\\V"⟩ :=
  installDailyTask_idempotent [] "09:30" "10:00" "python"
    "Valyro - Daily Scrape" "C:\\V" (by decide)

/-- Keywords for which `loadDashboard` requests latest stats
(`App.tsx` line 101): `kws.slice(0, 25)`, after the early return when
`kws.length === 0`. -/
def loadDashboardStatsKeywords (kws : List String) : List String :=
  if kws.length = 0 then [] else kws.take 25

/-- Keywords for which `loadDashboard` computes price-change indicators
(`App.tsx` line 116): the keywords of `mapped.slice(0, 4)`, where
`mapped` has one row per stats response, i.e. per element of
`kws.slice(0, 25)` (the server echoes the requested keyword back in the
`keyword` field of each stats response). -/
def loadDashboardCardKeywords (kws : List String) : List String :=
  if kws.length = 0 then [] else (kws.take 25).take 4

/-- C8: the dashboard truncates the full keyword list from the store
before fetching per-keyword data: stats are requested for exactly the
first 25 keywords (so at most 25 requests), and price-change indicators
are computed for exactly the first 4 (so at most 4); the store's list
itself is consumed whole and unfiltered. -/
theorem loadDashboard_truncation (kws : List String) :
    loadDashboardStatsKeywords kws = kws.take 25 ∧
    (loadDashboardStatsKeywords kws).length ≤ 25 ∧
    loadDashboardCardKeywords kws = kws.take 4 ∧
    (loadDashboardCardKeywords kws).length ≤ 4 := by
  have htake : loadDashboardStatsKeywords kws = kws.take 25 := by
    unfold loadDashboardStatsKeywords
    by_cases h : kws.length = 0
    · rw [if_pos h]
      rw [List.length_eq_zero] at h
      simp [h]
    · rw [if_neg h]
  have hcard : loadDashboardCardKeywords kws = kws.take 4 := by
    unfold loadDashboardCardKeywords
    by_cases h : kws.length = 0
    · rw [if_pos h]
      rw [List.length_eq_zero] at h
      simp [h]
    · rw [if_neg h, List.take_take]
      norm_num
  refine ⟨htake, ?_, hcard, ?_⟩
  · rw [htake, List.length_take]
    exact min_le_left _ _
  · rw [hcard, List.length_take]
    exact min_le_left _ _

/-- A JSON value, as produced by `JSON.parse` (object keys are unique
because `JSON.parse` keeps the last occurrence of a duplicated key). -/
inductive JsVal where
  | null
  | bool (b : Bool)
  | num (n : JSNum)
  | str (s : String)
  | arr (elems : List JsVal)
  | obj (fields : List (String × JsVal))

/-- The client-side `listKeywords` (`api/valyro.ts` lines 336-341)
applied to the parsed JSON of `GET /keywords`:
`if (Array.isArray(r)) return r; if (r && Array.isArray(r.keywords))
return r.keywords; return [];`. A property read `r.keywords` on a
non-object yields `undefined` (never an array), and `null` fails the
truthiness test, so every non-object, non-array shape falls through to
`[]`. -/
def listKeywordsOf (r : JsVal) : List JsVal :=
  match r with
  | .arr xs => xs
  | .obj fields =>
      match fields.lookup "keywords" with
      | some (.arr xs) => xs
      | _ => []
  | _ => []

/-- C9: `listKeywords` is total on arbitrary JSON: an array is returned
as is, an object with an array-valued `keywords` field yields that
field, and every other shape (including an object whose `keywords` field
is missing or not an array) yields the empty list. -/
theorem listKeywordsOf_shape (r : JsVal) :
    (∀ xs, r = .arr xs → listKeywordsOf r = xs) ∧
    (∀ fields xs, r = .obj fields →
      fields.lookup "keywords" = some (.arr xs) → listKeywordsOf r = xs) ∧
    (∀ fields, r = .obj fields →
      (∀ xs, fields.lookup "keywords" ≠ some (.arr xs)) →
      listKeywordsOf r = []) ∧
    ((∀ xs, r ≠ .arr xs) → (∀ fields, r ≠ .obj fields) →
      listKeywordsOf r = []) := by
  refine ⟨?_, ?_, ?_, ?_⟩
  · rintro xs rfl
    rfl
  · rintro fields xs rfl hf
    simp [listKeywordsOf, hf]
  · rintro fields rfl hf
    cases hl : fields.lookup "keywords" with
    | none => simp [listKeywordsOf, hl]
    | some v =>
      cases v <;>
        first
        | exact absurd hl (hf _)
        | simp [listKeywordsOf, hl]
  · intro harr hobj
    cases r with
    | arr xs => exact absurd rfl (harr xs)
    | obj fields => exact absurd rfl (hobj fields)
    | null => rfl
    | bool b => rfl
    | num n => rfl
    | str s => rfl

/-- Witness for C9 at the three concrete shapes. -/
theorem listKeywordsOf_shape_witness :
    listKeywordsOf (.arr [.str "ps5"]) = [.str "ps5"] ∧
    listKeywordsOf (.obj [("keywords", .arr [.str "ps5"])]) = [.str "ps5"] ∧
    listKeywordsOf (.num (.num 3)) = [] :=
  ⟨(listKeywordsOf_shape (.arr [.str "ps5"])).1 [.str "ps5"] rfl,
   (listKeywordsOf_shape (.obj [("keywords", .arr [.str "ps5"])])).2.1
     [("keywords", .arr [.str "ps5"])] [.str "ps5"] rfl rfl,
   (listKeywordsOf_shape (.num (.num 3))).2.2.2
     (fun _ h => JsVal.noConfusion h) (fun _ h => JsVal.noConfusion h)⟩

/-- JavaScript's `String.prototype.trim`: strip leading and trailing
whitespace (the JS whitespace set restricted to the characters
`Char.isWhitespace` recognises). -/
def jsTrim (s : String) : String :=
  ⟨((s.data.dropWhile Char.isWhitespace).reverse.dropWhile
      Char.isWhitespace).reverse⟩

/-- `toNumOrUndef` of `SearchBar.tsx` (lines 484-489), parameterised by
the JavaScript string-to-number coercion `Number(...)` (which yields
`NaN` on non-numeric strings): trim the input, map the empty string to
`undefined`, coerce, and keep the result only if it is finite. -/
def toNumOrUndef (numberOf : String → JSNum) (v : String) : Option JSNum :=
  let s := jsTrim v
  if s = "" then none
  else if (numberOf s).isFinite then some (numberOf s) else none

/-- The request body `opts` built by `handleSearch`
(`SearchBar.tsx` lines 496-501), which `onAnalyze` posts to
`POST /keyword/{kw}/scrape`. -/
structure ScrapeOpts where
  min_price : Option JSNum
  max_price : Option JSNum
  filter_mode : String
  exclude_bad_text : Bool

/-- `handleSearch`'s construction of the scrape options. -/
def handleSearchOpts (numberOf : String → JSNum)
    (minPrice maxPrice filterMode : String) (excludeBadText : Bool) :
    ScrapeOpts :=
  ⟨toNumOrUndef numberOf minPrice, toNumOrUndef numberOf maxPrice,
    filterMode, excludeBadText⟩

/-- Helper: `toNumOrUndef` only ever returns a finite number. -/
theorem toNumOrUndef_isFinite (numberOf : String → JSNum) (v : String)
    (n : JSNum) (h : toNumOrUndef numberOf v = some n) :
    n.isFinite = true := by
  unfold toNumOrUndef at h
  by_cases he : jsTrim v = ""
  · simp [he] at h
  · rw [if_neg he] at h
    by_cases hf : (numberOf (jsTrim v)).isFinite
    · rw [if_pos hf] at h
      exact (Option.some_injective _ h) ▸ hf
    · simp [hf] at h

/-- C10: for every price-bound string typed into the search form and
every behaviour of the string-to-number coercion, the scrape request
carries the bound either as a finite number or not at all: empty and
whitespace-only inputs, and inputs the coercion maps to `NaN` or an
infinity, are omitted, so a non-finite bound is never transmitted. -/
theorem handleSearchOpts_price_bounds_safe (numberOf : String → JSNum)
    (minPrice maxPrice filterMode : String) (excl : Bool) :
    (∀ n, (handleSearchOpts numberOf minPrice maxPrice filterMode
      excl).min_price = some n → n.isFinite = true) ∧
    (∀ n, (handleSearchOpts numberOf minPrice maxPrice filterMode
      excl).max_price = some n → n.isFinite = true) ∧
    (jsTrim minPrice = "" → (handleSearchOpts numberOf minPrice maxPrice
      filterMode excl).min_price = none) ∧
    ((numberOf (jsTrim minPrice)).isFinite = false →
      (handleSearchOpts numberOf minPrice maxPrice filterMode
        excl).min_price = none) ∧
    (jsTrim maxPrice = "" → (handleSearchOpts numberOf minPrice maxPrice
      filterMode excl).max_price = none) ∧
    ((numberOf (jsTrim maxPrice)).isFinite = false →
      (handleSearchOpts numberOf minPrice maxPrice filterMode
        excl).max_price = none) := by
  refine ⟨fun n h => toNumOrUndef_isFinite numberOf minPrice n h,
    fun n h => toNumOrUndef_isFinite numberOf maxPrice n h, ?_, ?_, ?_, ?_⟩
  · intro he
    simp [handleSearchOpts, toNumOrUndef, he]
  · intro hf
    by_cases he : jsTrim minPrice = "" <;>
      simp [handleSearchOpts, toNumOrUndef, he, hf]
  · intro he
    simp [handleSearchOpts, toNumOrUndef, he]
  · intro hf
    by_cases he : jsTrim maxPrice = "" <;>
      simp [handleSearchOpts, toNumOrUndef, he, hf]

/-- Witness for C10 with a concrete coercion: `"12"` is transmitted as
a finite number, a whitespace-only minimum is omitted, and a `NaN`
coercion result (non-numeric text) is omitted. -/
theorem handleSearchOpts_price_bounds_safe_witness :
    (JSNum.num 12).isFinite = true ∧
    (handleSearchOpts (fun s => if s = "12" then .num 12 else .nan)
      " " "12" "soft" true).min_price = none ∧
    (handleSearchOpts (fun s => if s = "12" then .num 12 else .nan)
      "abc" "12" "soft" true).min_price = none := by
  refine ⟨?_, ?_, ?_⟩
  · exact (handleSearchOpts_price_bounds_safe
      (fun s => if s = "12" then .num 12 else .nan)
      "abc" "12" "soft" true).2.1 (.num 12) (by decide)
  · exact (handleSearchOpts_price_bounds_safe
      (fun s => if s = "12" then .num 12 else .nan)
      " " "12" "soft" true).2.2.1 (by decide)
  · exact (handleSearchOpts_price_bounds_safe
      (fun s => if s = "12" then .num 12 else .nan)
      "abc" "12" "soft" true).2.2.2.1 (by decide)

/-- A price band `{from, to}` of the stats response (`from`/`to` are
reserved words in Lean, hence the trailing underscores). -/
structure Band where
  from_ : ℚ
  to_ : ℚ
deriving DecidableEq, Repr

/-- The `stats` object of `GET /keyword/{kw}/stats`. Numeric fields are
`Option`al because for an empty run (`n == 0`) the statistics are
absent/null in the JSON, whatever the TypeScript annotation promises. -/
structure StatsFields where
  n : Option ℕ
  media : Option JSNum
  mediana : Option JSNum
  q1 : Option JSNum
  q2 : Option JSNum
  q3 : Option JSNum
deriving DecidableEq, Repr

/-- The `price_ranges` object of the stats response; every band is
absent when `n == 0`. -/
structure PriceRanges where
  normal : Option Band
  fast : Option Band
  slow : Option Band
  quick : Option Band
deriving DecidableEq, Repr

/-- `KeywordStatsResponse` of `api/valyro.ts` (the fields the dashboard
reads). -/
structure KeywordStatsResponse where
  keyword : String
  scraped_at : String
  stats : StatsFields
  price_ranges : PriceRanges
deriving DecidableEq, Repr

/-- A row of the dashboard comparison table (`ComparisonRow` in
`App.tsx`; `lastAnalysis` keeps the raw `scraped_at`, the `formatDate`
presentation is not modelled). -/
structure ComparisonRow where
  keyword : String
  lastAnalysis : String
  median : Option JSNum
  q1 : Option JSNum
  q2 : Option JSNum
  q3 : Option JSNum
  normalRange : String
deriving DecidableEq, Repr

/-- `Math.round` (round half toward positive infinity, which Mathlib's
`round` also does); the non-finite specials round to themselves. -/
def jsRound : JSNum → JSNum
  | .num q => .num (round q : ℤ)
  | x => x

/-- Display string of a JavaScript number (decimal formatting of finite
values is not modelled beyond `toString` of the rational). -/
def jsNumToString : JSNum → String
  | .num q => toString q
  | .nan => "NaN"
  | .inf => "Infinity"
  | .negInf => "-Infinity"

/-- The row mapping in `loadDashboard` (`App.tsx` lines 103-111). The
`normalRange` field reads `s.price_ranges.normal.from` and `....to`
unconditionally; when the `normal` band is absent the property read on
`undefined` throws a `TypeError`, modelled as `Except.error` (the
exception is caught by `loadDashboard`'s `catch`, which puts the
dashboard into its error state). -/
def appComparisonRow (s : KeywordStatsResponse) :
    Except String ComparisonRow :=
  match s.price_ranges.normal with
  | none =>
      .error "TypeError: cannot read properties of undefined"
  | some b =>
      .ok ⟨s.keyword, s.scraped_at, s.stats.mediana, s.stats.q1,
        s.stats.q2, s.stats.q3,
        toString (round b.from_) ++ "€ - " ++ toString (round b.to_) ++ "€"⟩

/-- The normal-range cell of `ProductDetailPanel` (`part_002` line 252):
`q1 != null && q3 != null ? `${Math.round(q1)}€ – ${Math.round(q3)}€` : '—'`. -/
def panelNormalRange (q1 q3 : Option JSNum) : String :=
  match q1, q3 with
  | some a, some b =>
      jsNumToString (jsRound a) ++ "€ – " ++ jsNumToString (jsRound b) ++ "€"
  | _, _ => "—"

/-- Counterexample for C3: a stats response of an empty run (`n == 0`,
all bands absent) makes the dashboard's row mapping throw instead of
rendering an "insufficient data" placeholder row. -/
theorem appComparisonRow_missing_band_throws :
    appComparisonRow
        ⟨"ps5", "2024-01-01T00:00:00", ⟨some 0, none, none, none, none, none⟩,
          ⟨none, none, none, none⟩⟩ =
      .error "TypeError: cannot read properties of undefined" := rfl

/-- C3 (amended): a missing `normal` band never yields a zero-priced or
numeric range on either read path — the detail panel renders the dash
placeholder `—` whenever `q1` or `q3` is absent (and renders a numeric
range only when both are present), while the dashboard table mapping
throws on the missing band (surfacing the error state) instead of
producing any row at all. -/
theorem missing_band_never_numeric (s : KeywordStatsResponse)
    (q1 q3 : Option JSNum) :
    (s.price_ranges.normal = none →
      appComparisonRow s =
        Except.error "TypeError: cannot read properties of undefined") ∧
    (s.price_ranges.normal = none →
      ∀ row : ComparisonRow, appComparisonRow s ≠ .ok row) ∧
    ((q1 = none ∨ q3 = none) → panelNormalRange q1 q3 = "—") ∧
    (panelNormalRange q1 q3 ≠ "—" → q1 ≠ none ∧ q3 ≠ none) := by
  refine ⟨?_, ?_, ?_, ?_⟩
  · intro h
    unfold appComparisonRow
    rw [h]
  · intro h row
    unfold appComparisonRow
    rw [h]
    exact fun hc => Except.noConfusion hc
  · rintro (rfl | rfl)
    · rfl
    · cases q1 <;> rfl
  · intro h
    constructor
    · rintro rfl
      exact h rfl
    · rintro rfl
      cases q1 <;> exact h rfl

/-- Witness for C3 (amended) at a concrete empty-run response. -/
theorem missing_band_never_numeric_witness :
    appComparisonRow
        ⟨"ps5", "2024-01-01T00:00:00", ⟨some 0, none, none, none, none, none⟩,
          ⟨none, none, none, none⟩⟩ =
      Except.error "TypeError: cannot read properties of undefined" ∧
    panelNormalRange none none = "—" :=
  ⟨(missing_band_never_numeric
      ⟨"ps5", "2024-01-01T00:00:00", ⟨some 0, none, none, none, none, none⟩,
        ⟨none, none, none, none⟩⟩ none none).1 rfl,
   (missing_band_never_numeric
      ⟨"ps5", "2024-01-01T00:00:00", ⟨some 0, none, none, none, none, none⟩,
        ⟨none, none, none, none⟩⟩ none none).2.2.1 (Or.inl rfl)⟩

/-- The fields of a parsed JSON error body that `apiJson` reads:
`j?.error?.message` and `j?.message` (each `none` when the path is
missing, null, or not a string). -/
structure ErrJson where
  errorMessage : Option String
  message : Option String
deriving DecidableEq, Repr

/-- Result value of `apiJson`: the empty object `{}` substituted for an
empty 2xx body, or the parsed body. -/
inductive JsOut where
  | emptyObj
  | parsed (j : ErrJson)
deriving DecidableEq, Repr

/-- The template-literal fallback `` `HTTP ${res.status}` ``. -/
def httpLabel (status : ℕ) : String := "HTTP " ++ toString status

/-- The `try` block of `apiJson`'s non-2xx branch (`App.tsx`
`api/valyro.ts` lines 271-275), with the outcome of `JSON.parse(text)`
supplied as `parsed` (`none` = the parse throws `SyntaxError`). The body
always throws: either `JSON.parse` does, or the explicit
`throw new Error(msg)` with
`msg = j?.error?.message ?? j?.message ?? text` does (the final
`?? HTTP ...` fallback is dead because `text` is never nullish). Hence
the result type `Except String Empty`: no normal completion exists. -/
def apiJsonTryBody (text : String) (parsed : Option ErrJson) :
    Except String Empty :=
  match parsed with
  | none => .error "SyntaxError: Unexpected token in JSON"
  | some j => .error (j.errorMessage.getD (j.message.getD text))

/-- `apiJson` (`api/valyro.ts` lines 264-282) as a function of the
response status (`ok` = 2xx), the body text, and the `JSON.parse`
outcome. In the non-2xx branch the whole `try { ... throw new Error(msg)
} catch { throw new Error(text || ...) }` runs: every throw of the try
body — including the explicit one carrying `msg` — is caught by its own
`catch`, which throws `Error(text || HTTP status)`. -/
def apiJsonModel (ok : Bool) (status : ℕ) (text : String)
    (parsed : Option ErrJson) : Except String JsOut :=
  if ok = false then
    match apiJsonTryBody text parsed with
    | .ok e => e.elim
    | .error _ => .error (if text = "" then httpLabel status else text)
  else if text = "" then .ok .emptyObj
  else
    match parsed with
    | some j => .ok (.parsed j)
    | none => .error "SyntaxError: Unexpected token in JSON"

/-- C4 (code bug): on a non-2xx response whose JSON body carries
`error.message = "boom"`, the surfaced error is the raw body text, not
`"boom"` — the `throw new Error(msg)` sits inside its own `try`, so the
`catch` swallows it and rethrows `text || HTTP status`. The 2xx
empty-body half of the claim does hold: the call resolves to `{}`. -/
theorem apiJson_surfaces_raw_body_not_message :
    apiJsonModel false 400 "\x7b\"error\":\x7b\"message\":\"boom\"\x7d\x7d"
        (some ⟨some "boom", none⟩) =
      .error "\x7b\"error\":\x7b\"message\":\"boom\"\x7d\x7d" ∧
    apiJsonModel false 400 "\x7b\"error\":\x7b\"message\":\"boom\"\x7d\x7d"
        (some ⟨some "boom", none⟩) ≠ .error "boom" ∧
    apiJsonModel false 404 "" none = .error "HTTP 404" ∧
    apiJsonModel true 200 "" none = .ok .emptyObj := by
  refine ⟨rfl, ?_, rfl, rfl⟩
  intro h
  have := Except.error.inj h
  exact absurd this (by decide)


/-- A value stored in a property of a merged comparison row: either a
median written by `byTs.get(ts)[kw] = p.mediana`, or the formatted date
string written into the `date` property when the row is created. -/
inductive CellVal where
  | num (v : JSNum)
  | str (s : String)
deriving DecidableEq, Repr

/-- A row of the merged comparison table built by `onCompare`
(`CompareSection.tsx` lines 37-51), as an association list of its
properties in insertion order: the `date` property set by the row
initializer `byTs.set(ts, { date: ... })` followed by the per-keyword
assignments `byTs.get(ts)[kw] = p.mediana`. A keyword literally named
`date` addresses the same property as the initializer. -/
abbrev CompareRow := List (String × CellVal)

/-- JavaScript property assignment `row[k] = v`: replace the value in
place if the key exists, else append the property. -/
def setCol (row : CompareRow) (k : String) (v : CellVal) : CompareRow :=
  match row with
  | [] => [(k, v)]
  | (k', w) :: rest =>
      if k' = k then (k, v) :: rest else (k', w) :: setCol rest k v

/-- One keyword's response of `GET /keyword/{kw}/series` (the shape
`getKeywordSeries` resolves to). -/
structure SeriesResp where
  keyword : String
  series : List SeriesPoint
deriving DecidableEq, Repr

/-- The loop body of `onCompare` for one point `p` of keyword `kw`,
parameterised by the `dd/mm/yyyy` formatter `fmtDate` applied to the
timestamp:
`if (!byTs.has(ts)) byTs.set(ts, { date: dd/mm/yy });`
`byTs.get(ts)[kw] = p.mediana`.
A `Map` keeps keys in insertion order, so a fresh timestamp appends a
new row — initialised with its `date` property — at the end, and an
existing row is updated in place. -/
def insertPoint (fmtDate : ℕ → String) (kw : String) (p : SeriesPoint) :
    List (ℕ × CompareRow) → List (ℕ × CompareRow)
  | [] => [(p.scraped_at,
      setCol [("date", .str (fmtDate p.scraped_at))] kw (.num p.mediana))]
  | (t, row) :: rest =>
      if t = p.scraped_at then (t, setCol row kw (.num p.mediana)) :: rest
      else (t, row) :: insertPoint fmtDate kw p rest

/-- The `byTs` map after `onCompare`'s double loop over the fetched
series list. -/
def buildByTs (fmtDate : ℕ → String) (seriesList : List SeriesResp) :
    List (ℕ × CompareRow) :=
  seriesList.foldl
    (fun acc s =>
      s.series.foldl (fun acc2 p => insertPoint fmtDate s.keyword p acc2) acc)
    []

/-- Comparator order of the final sort
`(a, b) => new Date(a[0]).getTime() - new Date(b[0]).getTime()`. -/
def rowLe (a b : ℕ × CompareRow) : Prop := a.1 ≤ b.1

instance : DecidableRel rowLe := fun a b => Nat.decLe a.1 b.1

instance : IsTotal (ℕ × CompareRow) rowLe := ⟨fun a b => Nat.le_total a.1 b.1⟩

instance : IsTrans (ℕ × CompareRow) rowLe := ⟨fun _ _ _ => Nat.le_trans⟩

/-- The merged table `Array.from(byTs.entries()).sort(...)` of
`onCompare` (the final `.map(([, row]) => row)` merely drops the key, so
the model keeps the keyed rows). -/
def mergedRows (fmtDate : ℕ → String) (seriesList : List SeriesResp) :
    List (ℕ × CompareRow) :=
  List.insertionSort rowLe (buildByTs fmtDate seriesList)

/-- Reading one cell of the merged table: the value of property `kw` in
the row keyed `t` (`none` when the row is missing or the row has no such
property, i.e. the chart reads `undefined`). -/
def colLookup (l : List (ℕ × CompareRow)) (t : ℕ) (kw : String) :
    Option CellVal :=
  (l.lookup t).bind fun row => row.lookup kw

/-- One `(keyword, point)` insertion operation; the double loop of
`onCompare` performs exactly the operations of `opsOf` in order. -/
def buildStep (fmtDate : ℕ → String) (acc : List (ℕ × CompareRow))
    (op : String × SeriesPoint) : List (ℕ × CompareRow) :=
  insertPoint fmtDate op.1 op.2 acc

/-- The flattened list of insertion operations of the double loop. -/
def opsOf (seriesList : List SeriesResp) : List (String × SeriesPoint) :=
  seriesList.foldr
    (fun s acc => s.series.map (fun p => (s.keyword, p)) ++ acc) []

/-- Helper: the nested fold of `buildByTs` is the flat fold over
`opsOf`. -/
theorem buildByTs_eq_foldl_ops (fmtDate : ℕ → String)
    (seriesList : List SeriesResp) :
    buildByTs fmtDate seriesList =
      (opsOf seriesList).foldl (buildStep fmtDate) [] := by
  suffices h : ∀ (L : List SeriesResp) (acc : List (ℕ × CompareRow)),
      L.foldl (fun acc s =>
        s.series.foldl
          (fun acc2 p => insertPoint fmtDate s.keyword p acc2) acc) acc =
      (opsOf L).foldl (buildStep fmtDate) acc by
    exact h seriesList []
  intro L
  induction L with
  | nil => intro acc; rfl
  | cons s L ih =>
    intro acc
    have hops : opsOf (s :: L) =
        s.series.map (fun p => (s.keyword, p)) ++ opsOf L := rfl
    rw [List.foldl_cons, ih, hops, List.foldl_append, List.foldl_map]
    rfl

/-- Helper: looking up the property just set yields the new value. -/
theorem lookup_setCol_self (row : CompareRow) (k : String) (v : CellVal) :
    (setCol row k v).lookup k = some v := by
  induction row with
  | nil => simp [setCol, List.lookup_cons]
  | cons hd tl ih =>
    obtain ⟨k', w⟩ := hd
    by_cases h : k' = k
    · simp [setCol, h, List.lookup_cons]
    · simp [setCol, h, List.lookup_cons, beq_false_of_ne (Ne.symm h), ih]

/-- Helper: setting one property leaves the other properties unchanged. -/
theorem lookup_setCol_other (row : CompareRow) (k k' : String)
    (v : CellVal) (h : k' ≠ k) :
    (setCol row k v).lookup k' = row.lookup k' := by
  induction row with
  | nil => simp [setCol, List.lookup_cons, beq_false_of_ne h]
  | cons hd tl ih =>
    obtain ⟨k₀, w⟩ := hd
    by_cases hk : k₀ = k
    · subst hk
      simp [setCol, List.lookup_cons, beq_false_of_ne h]
    · simp [setCol, hk, List.lookup_cons, ih]

/-- Helper: the row keys after one insertion. -/
theorem map_fst_insertPoint (fmtDate : ℕ → String) (kw : String)
    (p : SeriesPoint) (l : List (ℕ × CompareRow)) :
    (insertPoint fmtDate kw p l).map Prod.fst =
      if p.scraped_at ∈ l.map Prod.fst then l.map Prod.fst
      else l.map Prod.fst ++ [p.scraped_at] := by
  induction l with
  | nil => simp [insertPoint]
  | cons hd tl ih =>
    obtain ⟨t, row⟩ := hd
    by_cases h : t = p.scraped_at
    · simp [insertPoint, h]
    · simp only [insertPoint, if_neg h, List.map_cons, List.mem_cons, ih]
      by_cases hm : p.scraped_at ∈ tl.map Prod.fst <;>
        simp [hm, Ne.symm h]

/-- Helper: an insertion leaves rows at other timestamps unchanged. -/
theorem lookup_insertPoint_other (fmtDate : ℕ → String) (kw : String)
    (p : SeriesPoint) (l : List (ℕ × CompareRow)) (t : ℕ)
    (h : t ≠ p.scraped_at) :
    (insertPoint fmtDate kw p l).lookup t = l.lookup t := by
  induction l with
  | nil => simp [insertPoint, List.lookup_cons, beq_false_of_ne h]
  | cons hd tl ih =>
    obtain ⟨t', row⟩ := hd
    by_cases ht : t' = p.scraped_at
    · subst ht
      simp [insertPoint, List.lookup_cons, beq_false_of_ne h]
    · simp [insertPoint, ht, List.lookup_cons, ih]

/-- Helper: the row at the inserted timestamp after one insertion — the
previous row when one existed, else the fresh `date`-initialised row,
with the keyword's property set. -/
theorem lookup_insertPoint_self (fmtDate : ℕ → String) (kw : String)
    (p : SeriesPoint) (l : List (ℕ × CompareRow)) :
    (insertPoint fmtDate kw p l).lookup p.scraped_at =
      some (setCol
        ((l.lookup p.scraped_at).getD
          [("date", .str (fmtDate p.scraped_at))])
        kw (.num p.mediana)) := by
  induction l with
  | nil => simp [insertPoint, List.lookup_cons]
  | cons hd tl ih =>
    obtain ⟨t', row⟩ := hd
    by_cases ht : t' = p.scraped_at
    · subst ht
      simp [insertPoint, List.lookup_cons]
    · simp [insertPoint, ht, List.lookup_cons,
        beq_false_of_ne (Ne.symm ht), ih]

/-- Helper: the effect of one insertion on a single cell: the written
cell gets the median; the `date` cell of a freshly created row gets the
formatted date; everything else is unchanged. -/
theorem colLookup_insertPoint (fmtDate : ℕ → String) (kw' : String)
    (p : SeriesPoint) (l : List (ℕ × CompareRow)) (t : ℕ) (kw : String) :
    colLookup (insertPoint fmtDate kw' p l) t kw =
      if p.scraped_at = t ∧ kw' = kw then some (.num p.mediana)
      else if p.scraped_at = t ∧ l.lookup t = none ∧ kw = "date" then
        some (.str (fmtDate t))
      else colLookup l t kw := by
  by_cases ht : t = p.scraped_at
  · subst ht
    rw [colLookup, lookup_insertPoint_self, Option.some_bind]
    by_cases hk : kw' = kw
    · subst hk
      rw [lookup_setCol_self, if_pos ⟨rfl, rfl⟩]
    · rw [lookup_setCol_other _ _ _ _ (Ne.symm hk),
        if_neg (fun hc => hk hc.2)]
      by_cases hl : l.lookup p.scraped_at = none
      · by_cases hkd : kw = "date"
        · subst hkd
          rw [if_pos ⟨rfl, hl, rfl⟩, hl, Option.getD_none]
          simp [List.lookup_cons]
        · rw [if_neg (fun hc => hkd hc.2.2), hl, Option.getD_none]
          unfold colLookup
          rw [hl, Option.none_bind]
          simp [List.lookup_cons, beq_false_of_ne hkd]
      · obtain ⟨row, hrow⟩ := Option.ne_none_iff_exists'.mp hl
        rw [if_neg (fun hc => hl hc.2.1), hrow, Option.getD_some]
        unfold colLookup
        rw [hrow, Option.some_bind]
  · rw [colLookup, lookup_insertPoint_other _ _ _ _ _ ht,
      if_neg (fun hc => ht hc.1.symm), if_neg (fun hc => ht hc.1.symm),
      colLookup]

/-- Helper: for any property other than `date`, one insertion behaves as
a pure column write. -/
theorem colLookup_insertPoint_ne_date (fmtDate : ℕ → String)
    (kw' : String) (p : SeriesPoint) (l : List (ℕ × CompareRow)) (t : ℕ)
    (kw : String) (hkw : kw ≠ "date") :
    colLookup (insertPoint fmtDate kw' p l) t kw =
      if p.scraped_at = t ∧ kw' = kw then some (.num p.mediana)
      else colLookup l t kw := by
  rw [colLookup_insertPoint]
  by_cases hc : p.scraped_at = t ∧ kw' = kw
  · rw [if_pos hc, if_pos hc]
  · rw [if_neg hc, if_neg hc, if_neg (fun h => hkw h.2.2)]

/-- Helper: one insertion preserves uniqueness of the row keys. -/
theorem nodup_keys_insertPoint (fmtDate : ℕ → String) (kw : String)
    (p : SeriesPoint) (l : List (ℕ × CompareRow))
    (h : (l.map Prod.fst).Nodup) :
    ((insertPoint fmtDate kw p l).map Prod.fst).Nodup := by
  rw [map_fst_insertPoint]
  by_cases hm : p.scraped_at ∈ l.map Prod.fst
  · simpa [hm]
  · rw [if_neg hm]
    simp [List.nodup_append, h, hm]

/-- Helper: key membership after one insertion. -/
theorem mem_keys_insertPoint (fmtDate : ℕ → String) (kw : String)
    (p : SeriesPoint) (l : List (ℕ × CompareRow)) (t : ℕ) :
    (t ∈ (insertPoint fmtDate kw p l).map Prod.fst ↔
      t ∈ l.map Prod.fst ∨ t = p.scraped_at) := by
  rw [map_fst_insertPoint]
  by_cases hm : p.scraped_at ∈ l.map Prod.fst
  · rw [if_pos hm]
    constructor
    · exact Or.inl
    · rintro (h | rfl)
      · exact h
      · exact hm
  · rw [if_neg hm]
    simp

/-- Helper: the whole insertion fold preserves key uniqueness. -/
theorem nodup_keys_foldl (fmtDate : ℕ → String)
    (ops : List (String × SeriesPoint)) (acc : List (ℕ × CompareRow))
    (h : (acc.map Prod.fst).Nodup) :
    (((ops.foldl (buildStep fmtDate) acc)).map Prod.fst).Nodup := by
  induction ops generalizing acc with
  | nil => exact h
  | cons op ops ih =>
    exact ih _ (nodup_keys_insertPoint fmtDate op.1 op.2 acc h)

/-- Helper: key membership after the whole insertion fold. -/
theorem mem_keys_foldl (fmtDate : ℕ → String)
    (ops : List (String × SeriesPoint)) (acc : List (ℕ × CompareRow))
    (t : ℕ) :
    t ∈ ((ops.foldl (buildStep fmtDate) acc)).map Prod.fst ↔
      t ∈ acc.map Prod.fst ∨ ∃ op ∈ ops, op.2.scraped_at = t := by
  induction ops generalizing acc with
  | nil => simp
  | cons op ops ih =>
    rw [List.foldl_cons]
    rw [ih (buildStep fmtDate acc op)]
    rw [buildStep, mem_keys_insertPoint]
    constructor
    · rintro ((h | rfl) | ⟨op', hop', h⟩)
      · exact Or.inl h
      · exact Or.inr ⟨op, List.mem_cons_self op ops, rfl⟩
      · exact Or.inr ⟨op', List.mem_cons_of_mem op hop', h⟩
    · rintro (h | ⟨op', hop', h⟩)
      · exact Or.inl (Or.inl h)
      · rcases List.mem_cons.mp hop' with rfl | hop''
        · exact Or.inl (Or.inr h.symm)
        · exact Or.inr ⟨op', hop'', h⟩

/-- Helper: a cell of a property other than `date` is empty after the
fold exactly when it was empty before and no operation wrote it. -/
theorem colLookup_foldl_eq_none (fmtDate : ℕ → String)
    (ops : List (String × SeriesPoint)) (acc : List (ℕ × CompareRow))
    (t : ℕ) (kw : String) (hkw : kw ≠ "date") :
    colLookup (ops.foldl (buildStep fmtDate) acc) t kw = none ↔
      colLookup acc t kw = none ∧
        ∀ op ∈ ops, ¬(op.1 = kw ∧ op.2.scraped_at = t) := by
  induction ops generalizing acc with
  | nil => simp
  | cons op ops ih =>
    rw [List.foldl_cons, ih (buildStep fmtDate acc op)]
    rw [buildStep, colLookup_insertPoint_ne_date _ _ _ _ _ _ hkw]
    by_cases hc : op.2.scraped_at = t ∧ op.1 = kw
    · rw [if_pos hc]
      constructor
      · rintro ⟨h, -⟩
        exact absurd h (by simp)
      · rintro ⟨-, hall⟩
        exact absurd ⟨hc.2, hc.1⟩ (hall op (List.mem_cons_self op ops))
    · rw [if_neg hc]
      constructor
      · rintro ⟨h, hall⟩
        refine ⟨h, ?_⟩
        intro op' hop'
        rcases List.mem_cons.mp hop' with rfl | hop''
        · exact fun hx => hc ⟨hx.2, hx.1⟩
        · exact hall op' hop''
      · rintro ⟨h, hall⟩
        exact ⟨h, fun op' hop' =>
          hall op' (List.mem_cons_of_mem op hop')⟩

/-- Helper: every value in a non-`date` cell after the fold comes from
the initial table or from one of the operations. -/
theorem colLookup_foldl_eq_some (fmtDate : ℕ → String)
    (ops : List (String × SeriesPoint)) (acc : List (ℕ × CompareRow))
    (t : ℕ) (kw : String) (m : CellVal) (hkw : kw ≠ "date")
    (h : colLookup (ops.foldl (buildStep fmtDate) acc) t kw = some m) :
    colLookup acc t kw = some m ∨
      ∃ op ∈ ops, op.1 = kw ∧ op.2.scraped_at = t ∧
        m = .num op.2.mediana := by
  induction ops generalizing acc with
  | nil => exact Or.inl h
  | cons op ops ih =>
    rw [List.foldl_cons] at h
    rcases ih (buildStep fmtDate acc op) h with h' | ⟨op', hop', h'⟩
    · rw [buildStep, colLookup_insertPoint_ne_date _ _ _ _ _ _ hkw] at h'
      by_cases hc : op.2.scraped_at = t ∧ op.1 = kw
      · rw [if_pos hc] at h'
        exact Or.inr ⟨op, List.mem_cons_self op ops,
          hc.2, hc.1, (Option.some_injective _ h').symm⟩
      · rw [if_neg hc] at h'
        exact Or.inl h'
    · exact Or.inr ⟨op', List.mem_cons_of_mem op hop', h'⟩

/-- Helper: a lookup misses exactly when the key is absent. -/
theorem lookup_eq_none_iff_not_mem_keys (l : List (ℕ × CompareRow))
    (t : ℕ) : l.lookup t = none ↔ t ∉ l.map Prod.fst := by
  induction l with
  | nil => simp
  | cons hd tl ih =>
    obtain ⟨t', row⟩ := hd
    by_cases h : t = t'
    · subst h
      simp [List.lookup_cons]
    · simp [List.lookup_cons, beq_false_of_ne h, h, ih]

/-- Helper: through the whole fold, the `date` cell of a row the fold
touches holds the formatted date string, provided no operation of the
keyword named `date` wrote that row. -/
theorem dateCol_foldl (fmtDate : ℕ → String)
    (ops : List (String × SeriesPoint)) (acc : List (ℕ × CompareRow))
    (t : ℕ)
    (hacc : colLookup acc t "date" = some (.str (fmtDate t)) ∨
      t ∉ acc.map Prod.fst)
    (hops : ∀ op ∈ ops, op.1 = "date" → op.2.scraped_at ≠ t)
    (hmem : t ∈ (ops.foldl (buildStep fmtDate) acc).map Prod.fst) :
    colLookup (ops.foldl (buildStep fmtDate) acc) t "date" =
      some (.str (fmtDate t)) := by
  induction ops generalizing acc with
  | nil =>
    rcases hacc with h | h
    · exact h
    · exact absurd hmem h
  | cons op ops ih =>
    rw [List.foldl_cons] at hmem ⊢
    refine ih (buildStep fmtDate acc op) ?_
      (fun op' h' => hops op' (List.mem_cons_of_mem op h')) hmem
    by_cases ht : op.2.scraped_at = t
    · have hkd : op.1 ≠ "date" :=
        fun h => hops op (List.mem_cons_self op ops) h ht
      left
      rw [buildStep, colLookup_insertPoint,
        if_neg (fun hc => hkd hc.2)]
      rcases hacc with hstr | hnot
      · have hrow : acc.lookup t ≠ none := by
          intro hn
          rw [colLookup, hn, Option.none_bind] at hstr
          exact Option.noConfusion hstr
        rw [if_neg (fun hc => hrow hc.2.1)]
        exact hstr
      · rw [if_pos
          ⟨ht, (lookup_eq_none_iff_not_mem_keys acc t).mpr hnot, rfl⟩]
    · have hkeys :
          t ∈ (buildStep fmtDate acc op).map Prod.fst ↔
            t ∈ acc.map Prod.fst := by
        rw [buildStep, mem_keys_insertPoint]
        constructor
        · rintro (h | rfl)
          · exact h
          · exact absurd rfl ht
        · exact Or.inl
      have hcell :
          colLookup (buildStep fmtDate acc op) t "date" =
            colLookup acc t "date" := by
        rw [buildStep, colLookup_insertPoint,
          if_neg (fun hc => ht hc.1), if_neg (fun hc => ht hc.1)]
      rcases hacc with hstr | hnot
      · exact Or.inl (hcell.trans hstr)
      · exact Or.inr (fun hm => hnot (hkeys.mp hm))

/-- Helper: a successful lookup is a member. -/
theorem mem_of_lookup_eq_some {l : List (ℕ × CompareRow)} {t : ℕ}
    {r : CompareRow} (h : l.lookup t = some r) : (t, r) ∈ l := by
  induction l with
  | nil => exact absurd h (by simp)
  | cons hd tl ih =>
    obtain ⟨t', row⟩ := hd
    by_cases ht : t = t'
    · subst ht
      rw [List.lookup_cons] at h
      simp only [beq_self_eq_true] at h
      rw [Option.some_inj] at h
      subst h
      exact List.mem_cons_self _ _
    · rw [List.lookup_cons, beq_false_of_ne ht] at h
      exact List.mem_cons_of_mem _ (ih h)

/-- Helper: with unique keys, a member is found by lookup. -/
theorem lookup_eq_some_of_mem (l : List (ℕ × CompareRow)) (t : ℕ)
    (r : CompareRow) (hnd : (l.map Prod.fst).Nodup) (hm : (t, r) ∈ l) :
    l.lookup t = some r := by
  induction l with
  | nil => exact absurd hm (by simp)
  | cons hd tl ih =>
    obtain ⟨t', row⟩ := hd
    rw [List.map_cons, List.nodup_cons] at hnd
    rcases List.mem_cons.mp hm with heq | hmem
    · rw [Prod.mk.injEq] at heq
      obtain ⟨rfl, rfl⟩ := heq
      rw [List.lookup_cons]
      simp
    · have ht : t ≠ t' := by
        rintro rfl
        exact hnd.1 (List.mem_map.mpr ⟨(t, r), hmem, rfl⟩)
      rw [List.lookup_cons, beq_false_of_ne ht]
      exact ih hnd.2 hmem

/-- Helper: lookups agree across a permutation when keys are unique. -/
theorem lookup_perm (l₁ l₂ : List (ℕ × CompareRow))
    (hperm : List.Perm l₁ l₂) (hnd : (l₁.map Prod.fst).Nodup) (t : ℕ) :
    l₁.lookup t = l₂.lookup t := by
  cases h : l₁.lookup t with
  | some r =>
    exact (lookup_eq_some_of_mem l₂ t r ((hperm.map Prod.fst).nodup hnd)
      (hperm.subset (mem_of_lookup_eq_some h))).symm
  | none =>
    symm
    rw [lookup_eq_none_iff_not_mem_keys] at h ⊢
    exact fun hm => h ((hperm.map Prod.fst).mem_iff.mpr hm)

/-- Helper: the keys of the built table are unique. -/
theorem nodup_keys_buildByTs (fmtDate : ℕ → String)
    (seriesList : List SeriesResp) :
    ((buildByTs fmtDate seriesList).map Prod.fst).Nodup := by
  rw [buildByTs_eq_foldl_ops]
  exact nodup_keys_foldl fmtDate _ [] (by simp)

/-- Helper: sorting the table does not change any cell. -/
theorem colLookup_mergedRows (fmtDate : ℕ → String)
    (seriesList : List SeriesResp) (t : ℕ) (kw : String) :
    colLookup (mergedRows fmtDate seriesList) t kw =
      colLookup (buildByTs fmtDate seriesList) t kw := by
  unfold colLookup
  rw [lookup_perm (mergedRows fmtDate seriesList)
    (buildByTs fmtDate seriesList)
    (List.perm_insertionSort rowLe (buildByTs fmtDate seriesList))
    (((List.perm_insertionSort rowLe
        (buildByTs fmtDate seriesList)).map Prod.fst).symm.nodup
      (nodup_keys_buildByTs fmtDate seriesList)) t]

/-- Helper: membership in the flattened operation list. -/
theorem mem_opsOf (seriesList : List SeriesResp)
    (op : String × SeriesPoint) :
    op ∈ opsOf seriesList ↔
      ∃ s ∈ seriesList, s.keyword = op.1 ∧ op.2 ∈ s.series := by
  induction seriesList with
  | nil => simp [opsOf]
  | cons s L ih =>
    have hcons : opsOf (s :: L) =
        s.series.map (fun p => (s.keyword, p)) ++ opsOf L := rfl
    rw [hcons, List.mem_append, ih]
    simp only [List.mem_map, List.mem_cons]
    constructor
    · rintro (⟨p, hp, rfl⟩ | ⟨s', hs', hk, hm⟩)
      · exact ⟨s, Or.inl rfl, rfl, hp⟩
      · exact ⟨s', Or.inr hs', hk, hm⟩
    · rintro ⟨s', hs'mem, hk, hm⟩
      rcases hs'mem with rfl | hs'
      · exact Or.inl ⟨op.2, hm, by rw [hk]⟩
      · exact Or.inr ⟨s', hs', hk, hm⟩

/-- C2 (amended): the merged comparison table has exactly one row per
distinct `scraped_at` occurring in any requested keyword's series
(unique row keys, key membership iff some series has a point there),
rows sorted ascending by `scraped_at`; for every keyword other than the
literal string `date`, a cell is absent (`null`/`undefined` to the
chart, never zero) exactly when that keyword has no point at that exact
timestamp — the row itself is not omitted — and every present cell is
the median of one of that keyword's points there; a requested keyword
literally named `date`, however, collides with the row's presentational
`date` property: at every row whose timestamp it lacks, its column holds
the formatted date string instead of null. -/
theorem compare_merge_spec (fmtDate : ℕ → String) (L : List SeriesResp) :
    ((mergedRows fmtDate L).map Prod.fst).Nodup ∧
    (∀ t, t ∈ (mergedRows fmtDate L).map Prod.fst ↔
      ∃ s ∈ L, ∃ p ∈ s.series, p.scraped_at = t) ∧
    List.Sorted rowLe (mergedRows fmtDate L) ∧
    (∀ t kw, kw ≠ "date" →
      (colLookup (mergedRows fmtDate L) t kw = none ↔
        ∀ s ∈ L, s.keyword = kw → ∀ p ∈ s.series, p.scraped_at ≠ t)) ∧
    (∀ t kw m, kw ≠ "date" →
      colLookup (mergedRows fmtDate L) t kw = some m →
      ∃ s ∈ L, s.keyword = kw ∧
        ∃ p ∈ s.series, p.scraped_at = t ∧ m = .num p.mediana) ∧
    (∀ t, t ∈ (mergedRows fmtDate L).map Prod.fst →
      (∀ s ∈ L, s.keyword = "date" → ∀ p ∈ s.series, p.scraped_at ≠ t) →
      colLookup (mergedRows fmtDate L) t "date" =
        some (.str (fmtDate t))) := by
  have keysPerm : List.Perm ((mergedRows fmtDate L).map Prod.fst)
      ((buildByTs fmtDate L).map Prod.fst) :=
    (List.perm_insertionSort rowLe (buildByTs fmtDate L)).map Prod.fst
  have hmemkeys : ∀ t, t ∈ (mergedRows fmtDate L).map Prod.fst ↔
      ∃ s ∈ L, ∃ p ∈ s.series, p.scraped_at = t := by
    intro t
    rw [keysPerm.mem_iff, buildByTs_eq_foldl_ops, mem_keys_foldl]
    simp only [List.map_nil, List.not_mem_nil, false_or]
    constructor
    · rintro ⟨op, hop, hts⟩
      obtain ⟨s, hs, hk, hm⟩ := (mem_opsOf L op).mp hop
      exact ⟨s, hs, op.2, hm, hts⟩
    · rintro ⟨s, hs, p, hp, hpt⟩
      exact ⟨(s.keyword, p), (mem_opsOf L _).mpr ⟨s, hs, rfl, hp⟩, hpt⟩
  refine ⟨keysPerm.symm.nodup (nodup_keys_buildByTs fmtDate L),
    hmemkeys, ?_, ?_, ?_, ?_⟩
  · exact List.sorted_insertionSort rowLe (buildByTs fmtDate L)
  · intro t kw hkw
    rw [colLookup_mergedRows, buildByTs_eq_foldl_ops,
      colLookup_foldl_eq_none _ _ _ _ _ hkw]
    constructor
    · rintro ⟨-, hall⟩ s hs hk p hp hpt
      exact hall (s.keyword, p) ((mem_opsOf L _).mpr ⟨s, hs, rfl, hp⟩)
        ⟨hk, hpt⟩
    · intro hall
      refine ⟨rfl, ?_⟩
      rintro op hop ⟨hk, ht⟩
      obtain ⟨s, hs, hks, hm⟩ := (mem_opsOf L op).mp hop
      exact hall s hs (hks.trans hk) op.2 hm ht
  · intro t kw m hkw h
    rw [colLookup_mergedRows, buildByTs_eq_foldl_ops] at h
    rcases colLookup_foldl_eq_some _ _ _ _ _ _ hkw h with
      h' | ⟨op, hop, hk, ht, hm⟩
    · exact absurd h' (by simp [colLookup])
    · obtain ⟨s, hs, hks, hmem⟩ := (mem_opsOf L op).mp hop
      exact ⟨s, hs, hks.trans hk, op.2, hmem, ht, hm⟩
  · intro t hmem hnodate
    rw [colLookup_mergedRows, buildByTs_eq_foldl_ops]
    refine dateCol_foldl fmtDate (opsOf L) [] t (Or.inr (by simp)) ?_ ?_
    · rintro op hop hk ht
      obtain ⟨s, hs, hks, hm⟩ := (mem_opsOf L op).mp hop
      exact hnodate s hs (hks.trans hk) op.2 hm ht
    · rw [← buildByTs_eq_foldl_ops]
      exact keysPerm.subset ((hmemkeys t).mpr ((hmemkeys t).mp hmem))

/-- Witness for C2 (amended) at the concrete staircase: keyword A with
runs at timestamps 1 and 2, keyword B with a run only at 1 — B's cell at
2 is null while the row at 2 exists, and the `date` column at 2 holds
the formatted date. -/
theorem compare_merge_spec_witness :
    colLookup (mergedRows (fun t => toString t)
      [⟨"A", [⟨1, .num 0, .num 10⟩, ⟨2, .num 0, .num 20⟩]⟩,
        ⟨"B", [⟨1, .num 0, .num 7⟩]⟩]) 2 "B" = none ∧
    colLookup (mergedRows (fun t => toString t)
      [⟨"A", [⟨1, .num 0, .num 10⟩, ⟨2, .num 0, .num 20⟩]⟩,
        ⟨"B", [⟨1, .num 0, .num 7⟩]⟩]) 2 "date" =
      some (.str (toString 2)) :=
  ⟨((compare_merge_spec (fun t => toString t)
      [⟨"A", [⟨1, .num 0, .num 10⟩, ⟨2, .num 0, .num 20⟩]⟩,
        ⟨"B", [⟨1, .num 0, .num 7⟩]⟩]).2.2.2.1 2 "B"
      (by decide)).mpr (by decide),
   (compare_merge_spec (fun t => toString t)
      [⟨"A", [⟨1, .num 0, .num 10⟩, ⟨2, .num 0, .num 20⟩]⟩,
        ⟨"B", [⟨1, .num 0, .num 7⟩]⟩]).2.2.2.2.2 2
      (by decide) (by decide)⟩

/-- Counterexample for C2 as originally stated: a requested keyword
literally named `date` (with a run at timestamp 1 but none at 2) does
not contribute null at timestamp 2 — its column holds the row's
formatted date string written by the `{ date: ... }` initializer. -/
theorem compare_merge_date_collision :
    colLookup (mergedRows (fun t => toString t)
      [⟨"A", [⟨1, .num 0, .num 10⟩, ⟨2, .num 0, .num 20⟩]⟩,
        ⟨"date", [⟨1, .num 0, .num 7⟩]⟩]) 2 "date" =
      some (.str "2") ∧
    colLookup (mergedRows (fun t => toString t)
      [⟨"A", [⟨1, .num 0, .num 10⟩, ⟨2, .num 0, .num 20⟩]⟩,
        ⟨"date", [⟨1, .num 0, .num 7⟩]⟩]) 2 "date" ≠ none := by
  refine ⟨rfl, ?_⟩
  intro h
  exact Option.noConfusion h

/-- Concrete evaluation of the staircase scenario, `date` columns
included: two rows, B present at 1, absent at 2, the row at 2 still
emitted with A's median. -/
theorem compare_merge_example :
    mergedRows (fun t => toString t)
      [⟨"A", [⟨1, .num 0, .num 10⟩, ⟨2, .num 0, .num 20⟩]⟩,
        ⟨"B", [⟨1, .num 0, .num 7⟩]⟩] =
      [(1, [("date", .str "1"), ("A", .num (JSNum.num 10)),
          ("B", .num (JSNum.num 7))]),
        (2, [("date", .str "2"), ("A", .num (JSNum.num 20))])] := by
  rfl
